import Mathlib

/-!
Shallow embedding of the memio shared-memory layer
(crates/memio-core and crates/memio-platform, Linux backend),
with theorems checking the natural-language specification against it.

Buffers and mapped regions are `List Nat` of byte values; `u64` and
`usize` values are `Nat` reduced modulo `2 ^ 64` exactly where the Rust
code truncates (little-endian 8-byte encoding, `fetch_add` wrap-around).
-/

namespace Memio

/-- Fixed sentinel, from the generated `shared_state_spec` constants. -/
def SHARED_STATE_MAGIC : Nat := 0x545552424F534852

/-- Header size in bytes. -/
def SHARED_STATE_HEADER_SIZE : Nat := 64

/-- Byte offset of the magic field. -/
def SHARED_STATE_MAGIC_OFFSET : Nat := 0

/-- Byte offset of the version field. -/
def SHARED_STATE_VERSION_OFFSET : Nat := 8

/-- Byte offset of the length field. -/
def SHARED_STATE_LENGTH_OFFSET : Nat := 16

/-- Modulus of the 64-bit machine integers (`u64`, 64-bit `usize`). -/
def U64_MOD : Nat := 2 ^ 64

/-- Little-endian encoding of `v` into `k` bytes (`u64::to_le_bytes` is
`natToLe 8`); values beyond `256 ^ k` are truncated, as in the machine. -/
def natToLe : Nat → Nat → List Nat
  | 0, _ => []
  | k + 1, v => v % 256 :: natToLe k (v / 256)

/-- Little-endian decoding of a byte list (`u64::from_le_bytes`). -/
def leToNat : List Nat → Nat
  | [] => 0
  | b :: bs => b + 256 * leToNat bs

/-- Rust `buf[off..off + data.len()].copy_from_slice(data)`: call sites
guarantee `off + data.length ≤ buf.length`. -/
def setSlice (buf : List Nat) (off : Nat) (data : List Nat) : List Nat :=
  buf.take off ++ data ++ buf.drop (off + data.length)

/-- The sub-list `buf[off..off+len]`. -/
def extractSlice (buf : List Nat) (off len : Nat) : List Nat :=
  (buf.drop off).take len

/-- Rust `read_u64_le` from `shared_header.rs`: decode 8 bytes at `off`. -/
def read_u64_le (buf : List Nat) (off : Nat) : Nat :=
  leToNat (extractSlice buf off 8)

/-- Rust `write_u64_le` from `shared_header.rs`: store 8 bytes at `off`. -/
def write_u64_le (buf : List Nat) (off : Nat) (value : Nat) : List Nat :=
  setSlice buf off (natToLe 8 value)

/-- The `MemioError` enum from `memio-core/src/error.rs`
(`SharedMemoryError` is an alias for it). -/
inductive MemioError where
  | ArenaFull (requested available : Nat)
  | Alignment (expected actual : Nat)
  | Serialization (msg : String)
  | Deserialization (msg : String)
  | PlatformNotSupported
  | InvalidCapacity
  | CreateFailed (msg : String)
  | OpenFailed (msg : String)
  | MmapFailed
  | DataTooLarge (data_len capacity : Nat)
  | InvalidHeader
  | NotFound (name : String)
  | Protocol (msg : String)
  | Io (msg : String)
  | LockPoisoned (msg : String)
  | Internal (msg : String)
  deriving Repr, DecidableEq

instance {ε α : Type} [DecidableEq ε] [DecidableEq α] : DecidableEq (Except ε α) :=
  fun x y =>
    match x, y with
    | .error a, .error b =>
      if h : a = b then .isTrue (congrArg Except.error h)
      else .isFalse (fun hh => h (Except.error.inj hh))
    | .ok a, .ok b =>
      if h : a = b then .isTrue (congrArg Except.ok h)
      else .isFalse (fun hh => h (Except.ok.inj hh))
    | .error _, .ok _ => .isFalse (fun hh => Except.noConfusion hh)
    | .ok _, .error _ => .isFalse (fun hh => Except.noConfusion hh)

/-- Rust `validate_magic` from `shared_header.rs`. -/
def validate_magic (buf : List Nat) : Bool :=
  if buf.length < SHARED_STATE_HEADER_SIZE then false
  else read_u64_le buf SHARED_STATE_MAGIC_OFFSET == SHARED_STATE_MAGIC

/-- Rust `write_header` from `shared_header.rs`; the mutated buffer is
returned in place of Rust's in-place mutation. -/
def write_header (buf : List Nat) (version length : Nat) :
    Except MemioError (List Nat) :=
  if buf.length < SHARED_STATE_HEADER_SIZE then
    .error (.Internal "Shared state header too small.")
  else
    .ok (write_u64_le
      (write_u64_le
        (write_u64_le buf SHARED_STATE_MAGIC_OFFSET SHARED_STATE_MAGIC)
        SHARED_STATE_VERSION_OFFSET version)
      SHARED_STATE_LENGTH_OFFSET length)

/-- Rust `write_header_unchecked` from `shared_header.rs`: returns the
success flag together with the (possibly unchanged) buffer. -/
def write_header_unchecked (buf : List Nat) (version length : Nat) :
    Bool × List Nat :=
  if buf.length < SHARED_STATE_HEADER_SIZE then (false, buf)
  else
    (true,
      write_u64_le
        (write_u64_le
          (write_u64_le buf SHARED_STATE_MAGIC_OFFSET SHARED_STATE_MAGIC)
          SHARED_STATE_VERSION_OFFSET version)
        SHARED_STATE_LENGTH_OFFSET length)

/-- Rust `read_header` from `shared_header.rs`. -/
def read_header (buf : List Nat) (capacity : Nat) : Option (Nat × Nat) :=
  if buf.length < SHARED_STATE_HEADER_SIZE then none
  else if read_u64_le buf SHARED_STATE_MAGIC_OFFSET ≠ SHARED_STATE_MAGIC then none
  else if read_u64_le buf SHARED_STATE_LENGTH_OFFSET > capacity then none
  else
    some (read_u64_le buf SHARED_STATE_VERSION_OFFSET,
      read_u64_le buf SHARED_STATE_LENGTH_OFFSET)

/-- Rust `read_version` from `shared_header.rs`. -/
def read_version (buf : List Nat) : Option Nat :=
  if buf.length < SHARED_STATE_HEADER_SIZE then none
  else some (read_u64_le buf SHARED_STATE_VERSION_OFFSET)

/-- Rust `read_length` from `shared_header.rs`. -/
def read_length (buf : List Nat) : Option Nat :=
  if buf.length < SHARED_STATE_HEADER_SIZE then none
  else some (read_u64_le buf SHARED_STATE_LENGTH_OFFSET)

/-- Rust `SharedStateInfo` from `memio-core/src/lib.rs`. -/
structure SharedStateInfo where
  name : String
  path : Option String
  fd : Option Int
  version : Nat
  length : Nat
  capacity : Nat
  deriving Repr, DecidableEq

/-- Association-list lookup, standing in for `HashMap::get`. -/
def alistLookup {α : Type} : List (String × α) → String → Option α
  | [], _ => none
  | (k', v) :: rest, k => if k' = k then some v else alistLookup rest k

/-- Association-list insert-or-replace, standing in for `HashMap::insert`. -/
def alistInsert {α : Type} : List (String × α) → String → α → List (String × α)
  | [], k, v => [(k, v)]
  | (k', v') :: rest, k, v =>
    if k' = k then (k, v) :: rest else (k', v') :: alistInsert rest k v

/-- Association-list removal of a key, standing in for `HashMap::remove`
(keys are unique in a `HashMap`, so removing every occurrence agrees). -/
def alistErase {α : Type} (l : List (String × α)) (k : String) : List (String × α) :=
  l.filter (fun p => p.1 ≠ k)

/-- The process-wide mutable environment of `linux.rs`: the `/dev/shm`
file system contents, the `REGISTRY` name-to-path table, and the
`COUNTER` nonce, for a process with id `pid`. -/
structure ShmState where
  files : List (String × List Nat)
  registryTable : List (String × String)
  counter : Nat
  pid : Nat
  deriving Repr, DecidableEq

/-- Rust `LinuxSharedMemoryRegion`: name, backing path, mapped bytes, payload
capacity.  The mapping is private to the handle (it stays valid after
the backing file is unlinked); `write` flushes it back to the file. -/
structure LinuxSharedMemoryRegion where
  name : String
  path : String
  mmap : List Nat
  capacity : Nat
  deriving Repr, DecidableEq

/-- Rust `LinuxSharedMemoryRegion::info`. -/
def regionInfo (r : LinuxSharedMemoryRegion) : Except MemioError SharedStateInfo :=
  match read_header r.mmap r.capacity with
  | none => .error .InvalidHeader
  | some (version, length) =>
    .ok ⟨r.name, some r.path, none, version, length, r.capacity⟩

/-- Rust `LinuxSharedMemoryRegion::read`. -/
def regionRead (r : LinuxSharedMemoryRegion) : Except MemioError (List Nat) :=
  match read_header r.mmap r.capacity with
  | none => .error .InvalidHeader
  | some (_, length) => .ok (extractSlice r.mmap SHARED_STATE_HEADER_SIZE length)

/-- Rust `MmapMut::flush`: write the mapped bytes back to the backing file;
after an unlink the pages persist but no directory entry is updated. -/
def flushFile (files : List (String × List Nat)) (path : String) (m : List Nat) :
    List (String × List Nat) :=
  match alistLookup files path with
  | some _ => alistInsert files path m
  | none => files

/-- Rust `LinuxSharedMemoryRegion::write`: capacity check, payload copy at
`HEADER_SIZE`, header stamp, flush.  Mirrors `&mut self` by returning
the (possibly unchanged) region and process state alongside the result. -/
def regionWrite (r : LinuxSharedMemoryRegion) (s : ShmState) (version : Nat)
    (data : List Nat) :
    Except MemioError SharedStateInfo × LinuxSharedMemoryRegion × ShmState :=
  if data.length > r.capacity then
    (.error (.DataTooLarge data.length r.capacity), r, s)
  else
    let m1 := setSlice r.mmap SHARED_STATE_HEADER_SIZE data
    let m2 := (write_header_unchecked m1 version data.length).2
    (.ok ⟨r.name, some r.path, none, version, data.length, r.capacity⟩,
      { r with mmap := m2 },
      { s with files := flushFile s.files r.path m2 })

/-- Rust `Drop for LinuxSharedMemoryRegion`: remove the backing file when it
still exists, then remove the region's name from `REGISTRY`. -/
def dropRegion (r : LinuxSharedMemoryRegion) (s : ShmState) : ShmState :=
  { s with
    files :=
      match alistLookup s.files r.path with
      | some _ => alistErase s.files r.path
      | none => s.files,
    registryTable := alistErase s.registryTable r.name }

/-- Rust `LinuxSharedMemoryFactory` (its only field is the base path). -/
structure LinuxSharedMemoryFactory where
  base_path : String
  deriving Repr, DecidableEq

/-- Rust `LinuxSharedMemoryFactory::generate_path`. -/
def generate_path (f : LinuxSharedMemoryFactory) (name : String) (pid nonce : Nat) :
    String :=
  f.base_path ++ "/" ++ "memio_" ++ name ++ "_" ++ toString pid ++ "_" ++
    toString nonce ++ "_" ++ "0" ++ ".bin"

/-- Rust `File::set_len`: truncate or zero-extend to `n` bytes. -/
def resizeTo (l : List Nat) (n : Nat) : List Nat :=
  l.take n ++ List.replicate (n - l.length) 0

/-- Rust `LinuxSharedMemoryFactory::open_or_create`.  On `create` the file is
created (or resized) to `HEADER_SIZE + capacity` zero-filled bytes and
the header is stamped with version 0 and length 0; otherwise the
existing bytes are mapped and the magic is validated.  On success the
name-to-path `REGISTRY` entry is inserted. -/
def open_or_create (name path : String) (capacity : Nat) (create : Bool)
    (s : ShmState) :
    Except MemioError (LinuxSharedMemoryRegion × ShmState) :=
  match alistLookup s.files path, create with
  | none, false => .error (.OpenFailed "No such file or directory")
  | old, _ =>
    if create then
      let contents := resizeTo (old.getD []) (SHARED_STATE_HEADER_SIZE + capacity)
      let m := (write_header_unchecked contents 0 0).2
      .ok (⟨name, path, m, capacity⟩,
        { s with
          files := alistInsert s.files path m,
          registryTable := alistInsert s.registryTable name path })
    else
      let m := old.getD []
      if validate_magic m then
        .ok (⟨name, path, m, capacity⟩,
          { s with registryTable := alistInsert s.registryTable name path })
      else .error .InvalidHeader

/-- Rust `LinuxSharedMemoryFactory::create`. -/
def factoryCreate (f : LinuxSharedMemoryFactory) (name : String) (capacity : Nat)
    (s : ShmState) :
    Except MemioError (LinuxSharedMemoryRegion × ShmState) :=
  if capacity = 0 then .error .InvalidCapacity
  else
    let path := generate_path f name s.pid s.counter
    open_or_create name path capacity true { s with counter := s.counter + 1 }

/-- Rust `LinuxSharedMemoryFactory::open`: look the name up in `REGISTRY`,
infer the capacity from the file size, then map without creating. -/
def factoryOpen (name : String) (s : ShmState) :
    Except MemioError (LinuxSharedMemoryRegion × ShmState) :=
  match alistLookup s.registryTable name with
  | none => .error (.NotFound name)
  | some path =>
    match alistLookup s.files path with
    | none => .error (.OpenFailed "No such file or directory")
    | some contents =>
      if contents.length < SHARED_STATE_HEADER_SIZE then .error .InvalidHeader
      else open_or_create name path (contents.length - SHARED_STATE_HEADER_SIZE) false s

/-- Rust `LinuxSharedMemoryFactory::exists`: the name is in `REGISTRY` and
its path still exists on disk. -/
def factoryExists (name : String) (s : ShmState) : Bool :=
  match alistLookup s.registryTable name with
  | some path => (alistLookup s.files path).isSome
  | none => false

/-- Rust `RegistryEntry` from `registry.rs`. -/
structure RegistryEntry where
  path : String
  region : LinuxSharedMemoryRegion
  deriving Repr, DecidableEq

/-- Rust `SharedRegistry` from `registry.rs` (entries map only; the manifest
path plays no part in the claims). -/
structure SharedRegistry where
  entries : List (String × RegistryEntry)
  deriving Repr, DecidableEq

/-- Rust `SharedRegistry::create_buffer`: create through the factory, insert
the owning region under the name.  `HashMap::insert` returns the
replaced entry, which is dropped at the end of the statement — its
`Drop` removes its file and its name from the factory `REGISTRY`. -/
def registryCreateBuffer (f : LinuxSharedMemoryFactory) (reg : SharedRegistry)
    (s : ShmState) (name : String) (capacity : Nat) :
    Except MemioError (SharedRegistry × ShmState) :=
  match factoryCreate f name capacity s with
  | .error e => .error e
  | .ok (region, s1) =>
    let path :=
      match regionInfo region with
      | .ok info => info.path.getD ""
      | .error _ => ""
    let old := alistLookup reg.entries name
    let reg' : SharedRegistry := ⟨alistInsert reg.entries name ⟨path, region⟩⟩
    match old with
    | some oldEntry => .ok (reg', dropRegion oldEntry.region s1)
    | none => .ok (reg', s1)

/-- Rust `ReadResult` from `memio_manager.rs`. -/
structure ReadResult where
  data : List Nat
  version : Nat
  deriving Repr, DecidableEq

/-- Rust `MemioManager::version` (Linux body): look the region up in the
registry and take `info()?.version`. -/
def managerVersion (reg : SharedRegistry) (name : String) : Except MemioError Nat :=
  match alistLookup reg.entries name with
  | none => .error (.NotFound name)
  | some e =>
    match regionInfo e.region with
    | .error err => .error err
    | .ok info => .ok info.version

/-- Rust `MemioManager::read` (Linux body): `info()` for the version, then
`read()` for the payload. -/
def managerRead (reg : SharedRegistry) (name : String) :
    Except MemioError ReadResult :=
  match alistLookup reg.entries name with
  | none => .error (.NotFound name)
  | some e =>
    match regionInfo e.region with
    | .error err => .error err
    | .ok info =>
      match regionRead e.region with
      | .error err => .error err
      | .ok data => .ok ⟨data, info.version⟩

/-- A region handle whose mapping spans exactly `HEADER_SIZE + capacity`
bytes with a `usize` capacity, as every handle the factory returns does. -/
def regionWF (r : LinuxSharedMemoryRegion) : Prop :=
  r.mmap.length = SHARED_STATE_HEADER_SIZE + r.capacity ∧ r.capacity < U64_MOD

instance (r : LinuxSharedMemoryRegion) : Decidable (regionWF r) := by
  unfold regionWF; infer_instance

/-- The state container `MemioState<T, R>` from `memio-core/src/state.rs`.
The serializer (`rkyv::to_bytes` composed with error mapping) and the
region trait method `SharedMemoryRegion::write` are parameters of the
operations; locks are elided (the embedding is sequential). -/
structure MState (T : Type) (R : Type) where
  inner : T
  version : Nat
  cache : Option (Nat × List Nat)
  shared_region : Option R

/-- Rust `MemioState::version`: load of the atomic counter. -/
def MState.versionOf {T R : Type} (st : MState T R) : Nat := st.version

/-- Rust `MemioState::write`: run the closure, `fetch_add` the version (a
`u64`, so wrapping at `2 ^ 64`), then — when a region is bound —
serialize, update the cache and write through the region, propagating
errors; without a region, invalidate the cache. -/
def MState.write {T R α : Type} (ser : T → Except MemioError (List Nat))
    (wr : R → Nat → List Nat → Except MemioError R)
    (st : MState T R) (f : T → T × α) :
    Except MemioError α × MState T R :=
  let t' := (f st.inner).1
  let result := (f st.inner).2
  let version := (st.version + 1) % U64_MOD
  match st.shared_region with
  | some region =>
    match ser t' with
    | .error e => (.error e, { st with inner := t', version := version })
    | .ok bytes =>
      match wr region version bytes with
      | .error e =>
        (.error e,
          { st with inner := t', version := version, cache := some (version, bytes) })
      | .ok region' =>
        (.ok result,
          { inner := t', version := version, cache := some (version, bytes),
            shared_region := some region' })
  | none =>
    (.ok result, { st with inner := t', version := version, cache := none })

/-- Rust `MemioState::to_bytes`. -/
def MState.to_bytes {T R : Type} (ser : T → Except MemioError (List Nat))
    (st : MState T R) : Except MemioError (List Nat) :=
  ser st.inner

/-- The cache test of `to_bytes_cached`: the cached bytes when the
cached version equals the current version. -/
def MState.cacheHit {T R : Type} (st : MState T R) : Option (List Nat) :=
  match st.cache with
  | some (cv, cb) => if cv = st.version then some cb else none
  | none => none

/-- Rust `MemioState::to_bytes_cached`: return the cached bytes on a version
match, else serialize, update the cache, and return. -/
def MState.to_bytes_cached {T R : Type} (ser : T → Except MemioError (List Nat))
    (st : MState T R) :
    Except MemioError (Nat × List Nat) × MState T R :=
  match st.cacheHit with
  | some cb => (.ok (st.version, cb), st)
  | none =>
    match ser st.inner with
    | .error e => (.error e, st)
    | .ok bytes =>
      (.ok (st.version, bytes), { st with cache := some (st.version, bytes) })

/-- A regionless state container whose `u64` version counter stands at
`u64::MAX`. -/
def c6WrapState : MState Unit Unit := ⟨(), U64_MOD - 1, none, none⟩

/-- The polling loop of `MemioManager::wait_for_change`, in a discrete
time model: iteration `k` observes `versionAt k` (the `version(name)?`
read, assumed to succeed for a registered buffer) at elapsed time
`k * poll_interval` (each `thread::sleep(poll_interval)` advances the
clock by `poll_interval`; the reads themselves are instantaneous).
`readAt k` is the `read(name)?` result at that poll.  The result pairs
the returned value with the elapsed time at return; the fuel argument
is a recursion bound shown sufficient whenever `0 < p`. -/
def wfcAux (versionAt : Nat → Nat) (readAt : Nat → ReadResult)
    (last_version t p : Nat) : Nat → Nat → Option (Option ReadResult × Nat)
  | 0, _ => none
  | fuel + 1, k =>
    if versionAt k ≠ last_version then some (some (readAt k), k * p)
    else if k * p ≥ t then some (none, k * p)
    else wfcAux versionAt readAt last_version t p fuel (k + 1)

/-- Rust `MemioManager::wait_for_change` with timeout `t` and poll interval
`p`, starting the loop at elapsed time zero. -/
def wait_for_change (versionAt : Nat → Nat) (readAt : Nat → ReadResult)
    (last_version t p : Nat) : Option (Option ReadResult × Nat) :=
  wfcAux versionAt readAt last_version t p (t / p + 2) 0

/-- A mapped region whose header carries valid magic, version 5 and a
length field of 9 that exceeds its capacity of 4. -/
def c9BadRegion : LinuxSharedMemoryRegion :=
  ⟨"b", "/dev/shm/b.bin",
    natToLe 8 SHARED_STATE_MAGIC ++ (natToLe 8 5 ++ (natToLe 8 9 ++ List.replicate 44 0)), 4⟩

/-- A registry holding `c9BadRegion` under the name `b`. -/
def c9Registry : SharedRegistry := ⟨[("b", ⟨"/dev/shm/b.bin", c9BadRegion⟩)]⟩

/-- The bytes of `b"payload"`. -/
def c2Data : List Nat := [112, 97, 121, 108, 111, 97, 100]

/-- The C2 trace: create an owning handle for `x` with capacity 64,
write `(7, b"payload")` through it, open a secondary handle for `x`,
then drop the secondary handle.  Returns the process state after the
drop together with the owning handle and the secondary handle's path. -/
def c2Final : Option (ShmState × LinuxSharedMemoryRegion × String) :=
  match factoryCreate ⟨"/dev/shm"⟩ "x" 64 ⟨[], [], 0, 1234⟩ with
  | .ok (own, s1) =>
    match regionWrite own s1 7 c2Data with
    | (.ok _, own2, s2) =>
      match factoryOpen "x" s2 with
      | .ok (sec, s3) => some (dropRegion sec s3, own2, sec.path)
      | .error _ => none
    | _ => none
  | .error _ => none

/-- The C10 trace at a concrete input: two `create_buffer("n", 4)` calls
through the registry from a fresh process state. -/
def c10Final : Option ShmState :=
  match registryCreateBuffer ⟨"/dev/shm"⟩ ⟨[]⟩ ⟨[], [], 0, 77⟩ "n" 4 with
  | .ok (reg1, s1) =>
    match registryCreateBuffer ⟨"/dev/shm"⟩ reg1 s1 "n" 4 with
    | .ok (_, s2) => some s2
    | .error _ => none
  | .error _ => none

/-- A fresh region of capacity 4 for the C1 witness. -/
def w1Region : LinuxSharedMemoryRegion := ⟨"r1", "/dev/shm/r1.bin", List.replicate 68 0, 4⟩

/-- A fresh process state used by the witnesses. -/
def w1State : ShmState := ⟨[], [], 0, 1⟩

/-- A fresh region of capacity 4 for the C3 witness. -/
def w3Region : LinuxSharedMemoryRegion := ⟨"r2", "/dev/shm/r2.bin", List.replicate 68 0, 4⟩

/-- A byte buffer with valid magic, version 3 and length 2. -/
def w5Buf : List Nat :=
  natToLe 8 SHARED_STATE_MAGIC ++ (natToLe 8 3 ++ (natToLe 8 2 ++ List.replicate 40 0))

/-- A regionless state container at version 5 for the C6 witness. -/
def w6State : MState Unit Unit := ⟨(), 5, none, none⟩

/-- A mapped region with a valid header (version 5, length 2 ≤ capacity 4). -/
def w9Region : LinuxSharedMemoryRegion :=
  ⟨"g", "/dev/shm/g.bin",
    natToLe 8 SHARED_STATE_MAGIC ++ (natToLe 8 5 ++ (natToLe 8 2 ++ List.replicate 44 0)), 4⟩

/-- A registry holding `w9Region` under the name `g`. -/
def w9Registry : SharedRegistry := ⟨[("g", ⟨"/dev/shm/g.bin", w9Region⟩)]⟩

/-- The first `create_buffer("n", 4)` of the C10 trace. -/
def c10Step1 : Except MemioError (SharedRegistry × ShmState) :=
  registryCreateBuffer ⟨"/dev/shm"⟩ ⟨[]⟩ ⟨[], [], 0, 77⟩ "n" 4

/-- The registry after the first create of the C10 trace. -/
def c10Reg1 : SharedRegistry :=
  match c10Step1 with | .ok (r, _) => r | .error _ => ⟨[]⟩

/-- The process state after the first create of the C10 trace. -/
def c10S1 : ShmState :=
  match c10Step1 with | .ok (_, s) => s | .error _ => ⟨[], [], 0, 77⟩

/-- The second `create_buffer("n", 4)` of the C10 trace. -/
def c10Step2 : Except MemioError (SharedRegistry × ShmState) :=
  registryCreateBuffer ⟨"/dev/shm"⟩ c10Reg1 c10S1 "n" 4

/-- The registry after the second create of the C10 trace. -/
def c10Reg2 : SharedRegistry :=
  match c10Step2 with | .ok (r, _) => r | .error _ => ⟨[]⟩

/-- The process state after the second create of the C10 trace. -/
def c10S2 : ShmState :=
  match c10Step2 with | .ok (_, s) => s | .error _ => ⟨[], [], 0, 77⟩

theorem natToLe_length (k v : Nat) : (natToLe k v).length = k := by
  induction k generalizing v with
  | zero => rfl
  | succ k ih => simp [natToLe, ih]

theorem leToNat_natToLe (k v : Nat) : leToNat (natToLe k v) = v % 256 ^ k := by
  induction k generalizing v with
  | zero => simp [natToLe, leToNat, Nat.mod_one]
  | succ k ih =>
    have hstep : leToNat (natToLe (k + 1) v) = v % 256 + 256 * (v / 256 % 256 ^ k) := by
      simp [natToLe, leToNat, ih]
    rw [hstep, pow_succ', Nat.mod_mul]

theorem leToNat_natToLe_of_lt (k v : Nat) (h : v < 256 ^ k) :
    leToNat (natToLe k v) = v := by
  rw [leToNat_natToLe, Nat.mod_eq_of_lt h]

theorem extractSlice_append_left (a b : List Nat) (off len : Nat)
    (h : off + len ≤ a.length) :
    extractSlice (a ++ b) off len = extractSlice a off len := by
  unfold extractSlice
  rw [List.drop_append_of_le_length (by omega)]
  rw [List.take_append_of_le_length (by simp; omega)]

theorem extractSlice_append_exact (a b : List Nat) (len : Nat)
    (ha : a.length = len) :
    extractSlice (a ++ b) 0 len = a := by
  unfold extractSlice
  simp [List.take_left' ha]

theorem drop_append_exact (a b : List Nat) (n : Nat) (ha : a.length = n) :
    (a ++ b).drop n = b :=
  List.drop_left' ha

theorem take_append_exact (a b : List Nat) (n : Nat) (ha : a.length = n) :
    (a ++ b).take n = a :=
  List.take_left' ha

theorem drop_shift (a b : List Nat) (off k : Nat) (ha : a.length = off) :
    (a ++ b).drop (off + k) = b.drop k := by
  rw [← List.drop_drop, List.drop_left' ha]

theorem write_u64_le_zero (buf : List Nat) (x : Nat) :
    write_u64_le buf 0 x = natToLe 8 x ++ buf.drop 8 := by
  simp [write_u64_le, setSlice, natToLe_length]

theorem write_u64_le_append (a b : List Nat) (off x : Nat) (ha : a.length = off) :
    write_u64_le (a ++ b) off x = a ++ (natToLe 8 x ++ b.drop 8) := by
  unfold write_u64_le setSlice
  rw [natToLe_length, List.take_append_of_le_length (by omega), List.take_of_length_le (by omega),
    drop_shift a b off 8 ha, List.append_assoc]

theorem extractSlice_zero (b : List Nat) (len : Nat) :
    extractSlice b 0 len = b.take len := by
  simp [extractSlice]

theorem read_u64_le_shift (a b : List Nat) (off : Nat) (ha : a.length = off) :
    read_u64_le (a ++ b) off = leToNat (b.take 8) := by
  unfold read_u64_le extractSlice
  rw [List.drop_left' ha]

theorem read_u64_le_zero (b : List Nat) : read_u64_le b 0 = leToNat (b.take 8) := by
  unfold read_u64_le extractSlice
  rw [List.drop_zero]

/-- The three header stores normalise to a prefix replacement: magic
bytes, version bytes, length bytes, then the untouched tail of the
buffer from offset 24 on. -/
theorem write_header_core (buf : List Nat) (v n : Nat) :
    write_u64_le (write_u64_le (write_u64_le buf SHARED_STATE_MAGIC_OFFSET SHARED_STATE_MAGIC)
        SHARED_STATE_VERSION_OFFSET v) SHARED_STATE_LENGTH_OFFSET n =
      natToLe 8 SHARED_STATE_MAGIC ++ (natToLe 8 v ++ (natToLe 8 n ++ buf.drop 24)) := by
  have l0 : (natToLe 8 SHARED_STATE_MAGIC).length = 8 := natToLe_length _ _
  have l1 : (natToLe 8 v).length = 8 := natToLe_length _ _
  show write_u64_le (write_u64_le (write_u64_le buf 0 SHARED_STATE_MAGIC) 8 v) 16 n = _
  rw [write_u64_le_zero]
  rw [write_u64_le_append _ _ 8 v l0]
  rw [← List.append_assoc]
  rw [write_u64_le_append (natToLe 8 SHARED_STATE_MAGIC ++ natToLe 8 v) _ 16 n
    (by rw [List.length_append, l0, l1])]
  simp [List.drop_drop]

theorem write_header_unchecked_eq (buf : List Nat) (v n : Nat) (h : 64 ≤ buf.length) :
    write_header_unchecked buf v n =
      (true, natToLe 8 SHARED_STATE_MAGIC ++ (natToLe 8 v ++ (natToLe 8 n ++ buf.drop 24))) := by
  unfold write_header_unchecked
  rw [if_neg (by simp [SHARED_STATE_HEADER_SIZE]; omega), write_header_core]

theorem write_header_eq (buf : List Nat) (v n : Nat) (h : 64 ≤ buf.length) :
    write_header buf v n =
      .ok (natToLe 8 SHARED_STATE_MAGIC ++ (natToLe 8 v ++ (natToLe 8 n ++ buf.drop 24))) := by
  unfold write_header
  rw [if_neg (by simp [SHARED_STATE_HEADER_SIZE]; omega), write_header_core]

theorem take8_encoded (x : Nat) (rest : List Nat) :
    (natToLe 8 x ++ rest).take 8 = natToLe 8 x :=
  List.take_left' (natToLe_length _ _)

theorem headerNF_length (v n : Nat) (tail : List Nat) :
    (natToLe 8 SHARED_STATE_MAGIC ++ (natToLe 8 v ++ (natToLe 8 n ++ tail))).length =
      24 + tail.length := by
  simp [natToLe_length]; omega

theorem headerNF_magic (v n : Nat) (tail : List Nat) :
    read_u64_le (natToLe 8 SHARED_STATE_MAGIC ++ (natToLe 8 v ++ (natToLe 8 n ++ tail)))
      SHARED_STATE_MAGIC_OFFSET = SHARED_STATE_MAGIC := by
  show read_u64_le _ 0 = _
  rw [read_u64_le_zero, take8_encoded, leToNat_natToLe_of_lt]
  norm_num [SHARED_STATE_MAGIC]

theorem headerNF_version (v n : Nat) (tail : List Nat) :
    read_u64_le (natToLe 8 SHARED_STATE_MAGIC ++ (natToLe 8 v ++ (natToLe 8 n ++ tail)))
      SHARED_STATE_VERSION_OFFSET = v % U64_MOD := by
  show read_u64_le _ 8 = _
  rw [read_u64_le_shift _ _ 8 (natToLe_length _ _), take8_encoded, leToNat_natToLe]
  norm_num [U64_MOD]

theorem headerNF_lengthField (v n : Nat) (tail : List Nat) :
    read_u64_le (natToLe 8 SHARED_STATE_MAGIC ++ (natToLe 8 v ++ (natToLe 8 n ++ tail)))
      SHARED_STATE_LENGTH_OFFSET = n % U64_MOD := by
  show read_u64_le _ 16 = _
  rw [← List.append_assoc]
  rw [read_u64_le_shift _ _ 16 (by simp [natToLe_length]), take8_encoded, leToNat_natToLe]
  norm_num [U64_MOD]

theorem headerNF_drop24 (v n : Nat) (tail : List Nat) :
    (natToLe 8 SHARED_STATE_MAGIC ++ (natToLe 8 v ++ (natToLe 8 n ++ tail))).drop 24 = tail := by
  rw [← List.append_assoc, ← List.append_assoc]
  exact List.drop_left' (by simp [natToLe_length])

/-- C4: `write_header` on a header-sized buffer succeeds, and the
resulting buffer decodes through `read_header` back to exactly the
version and length that were written, with `validate_magic` true.  The
side conditions `v < 2 ^ 64` and `capacity < 2 ^ 64` are the `u64` and
`usize` typing bounds of the Rust signature. -/
theorem write_header_read_header_roundtrip (buf : List Nat) (v n capacity : Nat)
    (hbuf : SHARED_STATE_HEADER_SIZE ≤ buf.length) (hv : v < U64_MOD)
    (hn : n ≤ capacity) (hcap : capacity < U64_MOD) :
    ∃ buf', write_header buf v n = .ok buf' ∧
      read_header buf' capacity = some (v, n) ∧ validate_magic buf' = true := by
  have h64 : 64 ≤ buf.length := by simpa [SHARED_STATE_HEADER_SIZE] using hbuf
  refine ⟨_, write_header_eq buf v n h64, ?_, ?_⟩
  · have hlen : (natToLe 8 SHARED_STATE_MAGIC ++
        (natToLe 8 v ++ (natToLe 8 n ++ buf.drop 24))).length = buf.length := by
      rw [headerNF_length]; simp; omega
    unfold read_header
    rw [if_neg (by rw [hlen]; simp [SHARED_STATE_HEADER_SIZE]; omega)]
    rw [if_neg (by rw [headerNF_magic]; simp)]
    simp only [headerNF_version, headerNF_lengthField]
    rw [Nat.mod_eq_of_lt hv, Nat.mod_eq_of_lt (by omega)]
    rw [if_neg (by omega)]
  · have hlen : (natToLe 8 SHARED_STATE_MAGIC ++
        (natToLe 8 v ++ (natToLe 8 n ++ buf.drop 24))).length = buf.length := by
      rw [headerNF_length]; simp; omega
    unfold validate_magic
    rw [if_neg (by rw [hlen]; simp [SHARED_STATE_HEADER_SIZE]; omega)]
    rw [headerNF_magic]
    simp

theorem natToLe_leToNat (k : Nat) (l : List Nat) (hk : l.length = k)
    (hb : ∀ b ∈ l, b < 256) : natToLe k (leToNat l) = l := by
  induction k generalizing l with
  | zero => simp_all [natToLe, List.length_eq_zero]
  | succ k ih =>
    match l, hk with
    | b :: bs, hk =>
      have hb0 : b < 256 := hb b (by simp)
      have hmod : (b + 256 * leToNat bs) % 256 = b := by
        rw [Nat.add_mul_mod_self_left, Nat.mod_eq_of_lt hb0]
      have hdiv : (b + 256 * leToNat bs) / 256 = leToNat bs := by
        rw [Nat.add_mul_div_left _ _ (by omega), Nat.div_eq_of_lt hb0, Nat.zero_add]
      show (b + 256 * leToNat bs) % 256 :: natToLe k ((b + 256 * leToNat bs) / 256) = b :: bs
      rw [hmod, hdiv, ih bs (by simpa using hk) (fun x hx => hb x (by simp [hx]))]

theorem magic_bytes_iff (buf : List Nat) (h64 : SHARED_STATE_HEADER_SIZE ≤ buf.length)
    (hb : ∀ b ∈ buf, b < 256) :
    read_u64_le buf SHARED_STATE_MAGIC_OFFSET = SHARED_STATE_MAGIC ↔
      extractSlice buf SHARED_STATE_MAGIC_OFFSET 8 = natToLe 8 SHARED_STATE_MAGIC := by
  have hlen : (extractSlice buf SHARED_STATE_MAGIC_OFFSET 8).length = 8 := by
    simp [extractSlice, SHARED_STATE_MAGIC_OFFSET]
    simp [SHARED_STATE_HEADER_SIZE] at h64
    omega
  have hbs : ∀ b ∈ extractSlice buf SHARED_STATE_MAGIC_OFFSET 8, b < 256 := by
    intro b hbmem
    exact hb b (List.mem_of_mem_drop (List.mem_of_mem_take hbmem))
  constructor
  · intro h
    have := natToLe_leToNat 8 _ hlen hbs
    rw [show leToNat (extractSlice buf SHARED_STATE_MAGIC_OFFSET 8) =
      read_u64_le buf SHARED_STATE_MAGIC_OFFSET from rfl, h] at this
    exact this.symm
  · intro h
    show leToNat (extractSlice buf SHARED_STATE_MAGIC_OFFSET 8) = _
    rw [h, leToNat_natToLe_of_lt]
    norm_num [SHARED_STATE_MAGIC]

/-- C5: `read_header` returns `none` exactly when the buffer is shorter
than the header, the eight magic bytes at offset 0 differ from the
sentinel, or the decoded length field exceeds `capacity`; otherwise it
returns the version and length fields decoded little-endian from
offsets 8 and 16.  The hypothesis `∀ b ∈ buf, b < 256` is the `&[u8]`
typing of the Rust buffer. -/
theorem read_header_spec (buf : List Nat) (capacity : Nat) (hb : ∀ b ∈ buf, b < 256) :
    (read_header buf capacity = none ↔
      buf.length < SHARED_STATE_HEADER_SIZE ∨
      extractSlice buf SHARED_STATE_MAGIC_OFFSET 8 ≠ natToLe 8 SHARED_STATE_MAGIC ∨
      capacity < read_u64_le buf SHARED_STATE_LENGTH_OFFSET) ∧
    (SHARED_STATE_HEADER_SIZE ≤ buf.length →
      extractSlice buf SHARED_STATE_MAGIC_OFFSET 8 = natToLe 8 SHARED_STATE_MAGIC →
      read_u64_le buf SHARED_STATE_LENGTH_OFFSET ≤ capacity →
      read_header buf capacity =
        some (read_u64_le buf SHARED_STATE_VERSION_OFFSET,
          read_u64_le buf SHARED_STATE_LENGTH_OFFSET)) := by
  by_cases hlen : buf.length < SHARED_STATE_HEADER_SIZE
  · refine ⟨by simp [read_header, hlen], fun h64 _ _ => absurd h64 (by omega)⟩
  · have h64 : SHARED_STATE_HEADER_SIZE ≤ buf.length := le_of_not_lt hlen
    have hmag := magic_bytes_iff buf h64 hb
    unfold read_header
    rw [if_neg hlen]
    by_cases hm : read_u64_le buf SHARED_STATE_MAGIC_OFFSET = SHARED_STATE_MAGIC
    · rw [if_neg (not_not_intro hm)]
      by_cases hcap : read_u64_le buf SHARED_STATE_LENGTH_OFFSET > capacity
      · refine ⟨?_, fun _ _ hle => absurd hle (by omega)⟩
        rw [if_pos hcap]
        exact iff_of_true rfl (Or.inr (Or.inr hcap))
      · rw [if_neg hcap]
        refine ⟨?_, fun _ _ _ => rfl⟩
        constructor
        · intro h; simp at h
        · rintro (h | h | h)
          · omega
          · exact absurd (hmag.mp hm) h
          · exact absurd h (by omega)
    · rw [if_pos hm]
      have hnb : extractSlice buf SHARED_STATE_MAGIC_OFFSET 8 ≠ natToLe 8 SHARED_STATE_MAGIC :=
        fun hbytes => hm (hmag.mpr hbytes)
      exact ⟨iff_of_true rfl (Or.inr (Or.inl hnb)),
        fun _ hbytes _ => absurd (hmag.mpr hbytes) hm⟩

theorem regionWrite_mmap (r : LinuxSharedMemoryRegion) (s : ShmState) (v : Nat)
    (data : List Nat) (hwf : r.mmap.length = SHARED_STATE_HEADER_SIZE + r.capacity)
    (hdata : data.length ≤ r.capacity) :
    (regionWrite r s v data).2.1.mmap =
      natToLe 8 SHARED_STATE_MAGIC ++ (natToLe 8 v ++ (natToLe 8 data.length ++
        ((r.mmap.take 64).drop 24 ++
          (data ++ r.mmap.drop (64 + data.length))))) := by
  have h64 : 64 ≤ r.mmap.length := by
    simp [SHARED_STATE_HEADER_SIZE] at hwf; omega
  have hm1len : (setSlice r.mmap SHARED_STATE_HEADER_SIZE data).length = r.mmap.length := by
    simp [setSlice, SHARED_STATE_HEADER_SIZE]
    simp [SHARED_STATE_HEADER_SIZE] at hwf
    omega
  unfold regionWrite
  rw [if_neg (by omega)]
  simp only
  rw [write_header_unchecked_eq _ _ _ (by omega)]
  simp only
  have hsplit : setSlice r.mmap SHARED_STATE_HEADER_SIZE data =
      r.mmap.take 64 ++ (data ++ r.mmap.drop (64 + data.length)) := by
    simp [setSlice, SHARED_STATE_HEADER_SIZE, List.append_assoc]
  rw [hsplit]
  rw [List.drop_append_of_le_length (by simp; omega)]

theorem regionWrite_ok_result (r : LinuxSharedMemoryRegion) (s : ShmState) (v : Nat)
    (data : List Nat) (hdata : data.length ≤ r.capacity) :
    (regionWrite r s v data).1 =
      .ok ⟨r.name, some r.path, none, v, data.length, r.capacity⟩ := by
  unfold regionWrite; rw [if_neg (by omega)]

theorem regionWrite_read_header (r : LinuxSharedMemoryRegion) (s : ShmState) (v : Nat)
    (data : List Nat) (hwf : regionWF r) (hv : v < U64_MOD)
    (hdata : data.length ≤ r.capacity) :
    read_header (regionWrite r s v data).2.1.mmap r.capacity = some (v, data.length) := by
  obtain ⟨hlen, hcap⟩ := hwf
  have h64 : 64 ≤ r.mmap.length := by simp [SHARED_STATE_HEADER_SIZE] at hlen; omega
  rw [regionWrite_mmap r s v data hlen hdata]
  unfold read_header
  rw [if_neg (by
    rw [headerNF_length]
    simp [SHARED_STATE_HEADER_SIZE]
    omega)]
  rw [if_neg (by rw [headerNF_magic]; simp)]
  rw [headerNF_lengthField, headerNF_version]
  rw [Nat.mod_eq_of_lt hv, Nat.mod_eq_of_lt (by simp [U64_MOD] at hcap ⊢; omega)]
  rw [if_neg (by omega)]

theorem regionWrite_payload (r : LinuxSharedMemoryRegion) (s : ShmState) (v : Nat)
    (data : List Nat) (hwf : regionWF r) (hdata : data.length ≤ r.capacity) :
    extractSlice (regionWrite r s v data).2.1.mmap SHARED_STATE_HEADER_SIZE
      data.length = data := by
  obtain ⟨hlen, hcap⟩ := hwf
  have h64 : 64 ≤ r.mmap.length := by simp [SHARED_STATE_HEADER_SIZE] at hlen; omega
  rw [regionWrite_mmap r s v data hlen hdata]
  show ((natToLe 8 SHARED_STATE_MAGIC ++ (natToLe 8 v ++ (natToLe 8 data.length ++
    ((r.mmap.take 64).drop 24 ++ (data ++ r.mmap.drop (64 + data.length)))))).drop 64).take
      data.length = data
  have hdrop64 : (natToLe 8 SHARED_STATE_MAGIC ++ (natToLe 8 v ++ (natToLe 8 data.length ++
      ((r.mmap.take 64).drop 24 ++ (data ++ r.mmap.drop (64 + data.length)))))).drop 64 =
      data ++ r.mmap.drop (64 + data.length) := by
    rw [show (64 : Nat) = 24 + 40 by norm_num, ← List.drop_drop, headerNF_drop24]
    exact List.drop_left' (by simp; omega)
  rw [hdrop64, List.take_left' rfl]

/-- C1: on a well-formed region of capacity `C`, writing any `data` with
`|data| ≤ C` under any `u64` version `v` succeeds and reports
`(v, |data|, C)`; afterwards `read()` returns exactly `data` and
`info()` reports version `v`, length `|data|` and capacity `C`. -/
theorem region_write_read_info (r : LinuxSharedMemoryRegion) (s : ShmState) (v : Nat)
    (data : List Nat) (hwf : regionWF r) (hv : v < U64_MOD)
    (hdata : data.length ≤ r.capacity) :
    (regionWrite r s v data).1 =
      .ok ⟨r.name, some r.path, none, v, data.length, r.capacity⟩ ∧
    regionRead (regionWrite r s v data).2.1 = .ok data ∧
    regionInfo (regionWrite r s v data).2.1 =
      .ok ⟨r.name, some r.path, none, v, data.length, r.capacity⟩ := by
  have hname : (regionWrite r s v data).2.1.name = r.name := by
    unfold regionWrite; rw [if_neg (by omega)]
  have hpath : (regionWrite r s v data).2.1.path = r.path := by
    unfold regionWrite; rw [if_neg (by omega)]
  have hcap : (regionWrite r s v data).2.1.capacity = r.capacity := by
    unfold regionWrite; rw [if_neg (by omega)]
  refine ⟨?_, ?_, ?_⟩
  · exact regionWrite_ok_result r s v data hdata
  · unfold regionRead
    rw [hcap, regionWrite_read_header r s v data hwf hv hdata]
    exact congrArg Except.ok (regionWrite_payload r s v data hwf hdata)
  · unfold regionInfo
    rw [hcap, regionWrite_read_header r s v data hwf hv hdata, hname, hpath]

/-- C3: on a well-formed region of capacity `C`, a write of exactly `C`
bytes succeeds, while a write of `C + 1` bytes fails with
`DataTooLarge { data_len := C + 1, capacity := C }` and leaves the
region (header and payload) and the file system untouched. -/
theorem region_write_boundary (r : LinuxSharedMemoryRegion) (s : ShmState) (v : Nat)
    (data dataBig : List Nat) (hwf : regionWF r) (hv : v < U64_MOD)
    (heq : data.length = r.capacity) (hbig : dataBig.length = r.capacity + 1) :
    (regionWrite r s v data).1 =
      .ok ⟨r.name, some r.path, none, v, r.capacity, r.capacity⟩ ∧
    regionWrite r s v dataBig =
      (.error (.DataTooLarge (r.capacity + 1) r.capacity), r, s) := by
  constructor
  · rw [regionWrite_ok_result r s v data (le_of_eq heq), heq]
  · unfold regionWrite
    rw [if_pos (by omega), hbig]

/-- C6 (amended): `write(f)` advances the version counter by exactly one
modulo `2 ^ 64` — the counter is an `AtomicU64` and `fetch_add` wraps —
so whenever the pre-call version is below `2 ^ 64 - 1` the post-call
version is exactly one plus the pre-call version, on every path (region
bound or not, serializer or region write failing or not). -/
theorem mstate_write_increments_version {T R α : Type}
    (ser : T → Except MemioError (List Nat))
    (wr : R → Nat → List Nat → Except MemioError R)
    (st : MState T R) (f : T → T × α) :
    (MState.write ser wr st f).2.versionOf = (st.versionOf + 1) % U64_MOD ∧
    (st.versionOf + 1 < U64_MOD →
      (MState.write ser wr st f).2.versionOf = st.versionOf + 1) := by
  have hall : (MState.write ser wr st f).2.versionOf = (st.versionOf + 1) % U64_MOD := by
    unfold MState.write MState.versionOf
    cases st.shared_region with
    | none => rfl
    | some region =>
      cases hser : ser (f st.inner).1 with
      | error e => simp [hser]
      | ok bytes =>
        cases hwr : wr region ((st.version + 1) % U64_MOD) bytes with
        | error e => simp [hser, hwr]
        | ok region' => simp [hser, hwr]
  exact ⟨hall, fun hlt => by rw [hall, Nat.mod_eq_of_lt hlt]⟩

/-- C6 counterexample: at version `2 ^ 64 - 1` the `fetch_add` wraps, so
after `write(f)` the version is 0, not one plus its previous value —
refuting strict increment as literally stated. -/
theorem mstate_write_version_wraps :
    (MState.write (fun _ => .ok []) (fun (r : Unit) _ _ => .ok r) c6WrapState
      (fun u => (u, u))).2.versionOf ≠ c6WrapState.versionOf + 1 := by decide

/-- C7: two consecutive `to_bytes_cached()` calls with no intervening
`write` return identical results — same version, byte-identical vector —
and the second call leaves the container unchanged. -/
theorem to_bytes_cached_stable {T R : Type} (ser : T → Except MemioError (List Nat))
    (st : MState T R) :
    (MState.to_bytes_cached ser (MState.to_bytes_cached ser st).2).1 =
      (MState.to_bytes_cached ser st).1 ∧
    (MState.to_bytes_cached ser (MState.to_bytes_cached ser st).2).2 =
      (MState.to_bytes_cached ser st).2 := by
  unfold MState.to_bytes_cached
  cases hhit : st.cacheHit with
  | some cb => simp [hhit]
  | none =>
    cases hser : ser st.inner with
    | error e => simp [hhit, hser]
    | ok bytes =>
      have hhit2 : ({ st with cache := some (st.version, bytes) } : MState T R).cacheHit =
          some bytes := by
        unfold MState.cacheHit
        simp
      simp [hhit, hser, hhit2]

theorem mul_pred_add (k p : Nat) (hk : 0 < k) : k * p = (k - 1) * p + p := by
  cases k with
  | zero => omega
  | succ k => simp [Nat.succ_sub_one, Nat.succ_mul]

theorem wfcAux_unchanged (versionAt : Nat → Nat) (readAt : Nat → ReadResult)
    (v0 t p : Nat) (hall : ∀ k, versionAt k = v0) (hp : 0 < p) :
    ∀ fuel k, t + p ≤ (k + fuel) * p → (k = 0 ∨ (k - 1) * p < t) →
      ∃ e, wfcAux versionAt readAt v0 t p fuel k = some (none, e) ∧ e ≤ t + p := by
  intro fuel
  induction fuel with
  | zero =>
    intro k hbound hinv
    exfalso
    rw [Nat.add_zero] at hbound
    rcases Nat.eq_zero_or_pos k with hk | hk
    · subst hk
      simp at hbound
      omega
    · have hmul := mul_pred_add k p hk
      rcases hinv with h0 | hlt
      · omega
      · linarith
  | succ fuel ih =>
    intro k hbound hinv
    unfold wfcAux
    rw [if_neg (by simp [hall k])]
    by_cases htime : k * p ≥ t
    · rw [if_pos htime]
      refine ⟨k * p, rfl, ?_⟩
      rcases Nat.eq_zero_or_pos k with hk | hk
      · subst hk; simp
      · have hmul := mul_pred_add k p hk
        rcases hinv with h0 | hlt
        · omega
        · linarith
    · rw [if_neg htime]
      have hb' : t + p ≤ (k + 1 + fuel) * p := by
        have heq : (k + (fuel + 1)) * p = (k + 1 + fuel) * p := by ring_nf
        rw [← heq]
        exact hbound
      refine ih (k + 1) hb' (Or.inr ?_)
      simpa using not_le.mp htime

theorem wfcAux_change (versionAt : Nat → Nat) (readAt : Nat → ReadResult)
    (v0 t p : Nat) :
    ∀ fuel k K, k ≤ K → (∀ j, j < K → versionAt j = v0) → versionAt K ≠ v0 →
      (∀ j, j < K → j * p < t) → K + 1 ≤ k + fuel →
      wfcAux versionAt readAt v0 t p fuel k = some (some (readAt K), K * p) := by
  intro fuel
  induction fuel with
  | zero => intro k K hkK _ _ _ hfuel; omega
  | succ fuel ih =>
    intro k K hkK hprev hK hpoll hfuel
    unfold wfcAux
    by_cases hkeq : k = K
    · subst hkeq
      rw [if_pos hK]
    · have hklt : k < K := lt_of_le_of_ne hkK hkeq
      rw [if_neg (by simp [hprev k hklt])]
      rw [if_neg (not_le.mpr (hpoll k hklt))]
      exact ih (k + 1) K (by omega) hprev hK hpoll (by omega)

/-- C8: in the discrete time model of the polling loop (`wfcAux`), for a
positive poll interval `p`: when the version never changes from `v0`
the call returns the timeout outcome `none` at an elapsed time of at
most `t + p`; and when the version first differs from `v0` at a poll
`K` that is actually reached (all earlier polls saw `v0` before the
timeout), the call returns the change outcome `some (readAt K)` — the
full read performed at that poll. -/
theorem wait_for_change_spec (versionAt : Nat → Nat) (readAt : Nat → ReadResult)
    (v0 t p : Nat) (hp : 0 < p) :
    ((∀ k, versionAt k = v0) →
      ∃ e, wait_for_change versionAt readAt v0 t p = some (none, e) ∧ e ≤ t + p) ∧
    (∀ K, (∀ j, j < K → versionAt j = v0) → versionAt K ≠ v0 →
      (∀ j, j < K → j * p < t) →
      wait_for_change versionAt readAt v0 t p = some (some (readAt K), K * p)) := by
  constructor
  · intro hall
    apply wfcAux_unchanged versionAt readAt v0 t p hall hp (t / p + 2) 0 ?_ (Or.inl rfl)
    have hdiv : p * (t / p) + t % p = t := Nat.div_add_mod t p
    have hmod : t % p < p := Nat.mod_lt _ hp
    have hexp : (0 + (t / p + 2)) * p = p * (t / p) + 2 * p := by ring
    rw [hexp]
    linarith
  · intro K hprev hK hpoll
    apply wfcAux_change versionAt readAt v0 t p (t / p + 2) 0 K (Nat.zero_le K)
      hprev hK hpoll
    rcases Nat.eq_zero_or_pos K with hk | hk
    · subst hk
      generalize t / p = q
      omega
    · have hlt : (K - 1) * p < t := hpoll (K - 1) (by omega)
      have hle : K - 1 ≤ t / p := (Nat.le_div_iff_mul_le hp).mpr (le_of_lt hlt)
      generalize hq : t / p = q at hle ⊢
      omega

/-- C9 (amended): `version(name)` on Linux goes through `info()`, which
performs a full `read_header` — magic check and length-versus-capacity
check included — rather than reading only the version field: when
`read_header` succeeds it returns exactly the header's version (which
then agrees with `read_version`), and when `read_header` fails (for
example because the length field exceeds the capacity) it fails with
`InvalidHeader` even though `read_version` would succeed. -/
theorem manager_version_spec (reg : SharedRegistry) (name : String) (e : RegistryEntry)
    (hlook : alistLookup reg.entries name = some e) :
    (∀ ver len, read_header e.region.mmap e.region.capacity = some (ver, len) →
      managerVersion reg name = .ok ver ∧ read_version e.region.mmap = some ver) ∧
    (read_header e.region.mmap e.region.capacity = none →
      managerVersion reg name = .error .InvalidHeader) := by
  constructor
  · intro ver len hsome
    constructor
    · simp [managerVersion, hlook, regionInfo, hsome]
    · have hlen : ¬ e.region.mmap.length < SHARED_STATE_HEADER_SIZE := by
        intro hlt
        simp [read_header, hlt] at hsome
      unfold read_header at hsome
      rw [if_neg hlen] at hsome
      split_ifs at hsome
      simp only [Option.some.injEq, Prod.mk.injEq] at hsome
      unfold read_version
      rw [if_neg hlen, hsome.1]
  · intro hnone
    simp [managerVersion, hlook, regionInfo, hnone]

/-- C9 counterexample: on a header-sized mapped buffer whose length
field exceeds the capacity, `read_version` succeeds with 5, yet the
manager's `version` returns `InvalidHeader` instead of succeeding —
refuting the claim that `version(name)` reads only the version field
and succeeds regardless of the other header fields. -/
theorem manager_version_not_fast_path :
    SHARED_STATE_HEADER_SIZE ≤ c9BadRegion.mmap.length ∧
    read_version c9BadRegion.mmap = some 5 ∧
    managerVersion c9Registry "b" = .error .InvalidHeader := by
  refine ⟨by decide, by decide, by decide⟩

theorem alistLookup_insert {α : Type} (l : List (String × α)) (k : String) (v : α) :
    alistLookup (alistInsert l k v) k = some v := by
  induction l with
  | nil => simp [alistInsert, alistLookup]
  | cons hd tl ih =>
    obtain ⟨k', v'⟩ := hd
    by_cases h : k' = k
    · simp [alistInsert, alistLookup, h]
    · simp [alistInsert, alistLookup, h, ih]

theorem alistLookup_erase {α : Type} (l : List (String × α)) (k : String) :
    alistLookup (alistErase l k) k = none := by
  induction l with
  | nil => simp [alistErase, alistLookup]
  | cons hd tl ih =>
    obtain ⟨k', v'⟩ := hd
    by_cases h : k' = k
    · simpa [alistErase, List.filter_cons, h] using ih
    · simpa [alistErase, List.filter_cons, h, alistLookup] using ih

set_option maxRecDepth 40000 in
/-- C2, evaluated at the failing input: after the secondary handle is
dropped, the backing file is gone and the name no longer exists for the
factory — `Drop for LinuxSharedMemoryRegion` unlinks unconditionally —
while reads through the owning handle's still-valid mapping do succeed. -/
theorem secondary_drop_unlinks_backing_file :
    (c2Final.map fun t =>
      ((alistLookup t.1.files t.2.2).isSome, factoryExists "x" t.1,
        regionRead t.2.1)) =
      some (false, false, .ok c2Data) := by decide

theorem open_or_create_true (name path : String) (capacity : Nat) (s : ShmState) :
    open_or_create name path capacity true s =
      .ok (⟨name, path,
          (write_header_unchecked (resizeTo ((alistLookup s.files path).getD [])
            (SHARED_STATE_HEADER_SIZE + capacity)) 0 0).2, capacity⟩,
        { s with
          files := alistInsert s.files path
            ((write_header_unchecked (resizeTo ((alistLookup s.files path).getD [])
              (SHARED_STATE_HEADER_SIZE + capacity)) 0 0).2),
          registryTable := alistInsert s.registryTable name path }) := by
  cases h : alistLookup s.files path with
  | none => simp [open_or_create, h]
  | some c => simp [open_or_create, h]

theorem factoryCreate_shape (f : LinuxSharedMemoryFactory) (name : String)
    (capacity : Nat) (s : ShmState) (h : capacity ≠ 0) :
    ∃ m s', factoryCreate f name capacity s =
      .ok (⟨name, generate_path f name s.pid s.counter, m, capacity⟩, s') := by
  unfold factoryCreate
  rw [if_neg h]
  rw [open_or_create_true]
  exact ⟨_, _, rfl⟩

theorem registryCreateBuffer_shape (f : LinuxSharedMemoryFactory)
    (reg reg' : SharedRegistry) (s s' : ShmState) (name : String) (capacity : Nat)
    (hcap : capacity ≠ 0)
    (hok : registryCreateBuffer f reg s name capacity = .ok (reg', s')) :
    ∃ path m s1,
      reg'.entries = alistInsert reg.entries name
        ⟨path, ⟨name, generate_path f name s.pid s.counter, m, capacity⟩⟩ ∧
      (alistLookup reg.entries name = none → s' = s1) ∧
      (∀ oldEntry, alistLookup reg.entries name = some oldEntry →
        s' = dropRegion oldEntry.region s1) := by
  obtain ⟨m, s1, hfc⟩ := factoryCreate_shape f name capacity s hcap
  unfold registryCreateBuffer at hok
  rw [hfc] at hok
  cases hold : alistLookup reg.entries name with
  | none =>
    rw [hold] at hok
    simp only [Except.ok.injEq, Prod.mk.injEq] at hok
    refine ⟨(match regionInfo (⟨name, generate_path f name s.pid s.counter, m,
        capacity⟩ : LinuxSharedMemoryRegion) with
      | Except.ok info => info.path.getD ""
      | Except.error _ => ""), m, s1, ?_, ?_, ?_⟩
    · rw [← hok.1]
    · intro _; exact hok.2.symm
    · intro o ho; exact Option.noConfusion ho
  | some oldEntry =>
    rw [hold] at hok
    simp only [Except.ok.injEq, Prod.mk.injEq] at hok
    refine ⟨(match regionInfo (⟨name, generate_path f name s.pid s.counter, m,
        capacity⟩ : LinuxSharedMemoryRegion) with
      | Except.ok info => info.path.getD ""
      | Except.error _ => ""), m, s1, ?_, ?_, ?_⟩
    · rw [← hok.1]
    · intro hno; exact Option.noConfusion hno
    · intro o ho
      obtain rfl : oldEntry = o := Option.some.inj ho
      exact hok.2.symm

/-- C10 (amended): creating the same name twice through the registry
succeeds, but afterwards the factory's `exists(name)` is `false` and
`open(name)` fails with `NotFound`: the replaced first region is
dropped by `HashMap::insert`, and its destructor removes `name` from
the factory's process-wide table (which by then points at the new
region's path) and unlinks its file.  The new region itself stays
reachable only through the registry's own entry for the name. -/
theorem create_buffer_twice_removes_factory_entry
    (f : LinuxSharedMemoryFactory) (reg reg1 reg2 : SharedRegistry)
    (s s1 s2 : ShmState) (name : String) (c1 c2 : Nat)
    (h1 : c1 ≠ 0) (h2 : c2 ≠ 0)
    (hfirst : registryCreateBuffer f reg s name c1 = .ok (reg1, s1))
    (hsecond : registryCreateBuffer f reg1 s1 name c2 = .ok (reg2, s2)) :
    factoryExists name s2 = false ∧
    factoryOpen name s2 = .error (.NotFound name) ∧
    ∃ entry, alistLookup reg2.entries name = some entry ∧
      entry.region.capacity = c2 := by
  obtain ⟨path1, m1, s1a, hent1, _, _⟩ :=
    registryCreateBuffer_shape f reg reg1 s s1 name c1 h1 hfirst
  have hlook1 : alistLookup reg1.entries name =
      some ⟨path1, ⟨name, generate_path f name s.pid s.counter, m1, c1⟩⟩ := by
    rw [hent1]; exact alistLookup_insert _ _ _
  obtain ⟨path2, m2, s2a, hent2, _, hdrop⟩ :=
    registryCreateBuffer_shape f reg1 reg2 s1 s2 name c2 h2 hsecond
  have hs2 : s2 = dropRegion ⟨name, generate_path f name s.pid s.counter, m1, c1⟩ s2a :=
    hdrop _ hlook1
  have hTable : alistLookup s2.registryTable name = none := by
    rw [hs2]
    unfold dropRegion
    exact alistLookup_erase _ _
  refine ⟨?_, ?_, ?_⟩
  · unfold factoryExists
    rw [hTable]
  · unfold factoryOpen
    rw [hTable]
  · refine ⟨⟨path2, ⟨name, generate_path f name s1.pid s1.counter, m2, c2⟩⟩, ?_, rfl⟩
    rw [hent2]; exact alistLookup_insert _ _ _

/-- C10 counterexample: after creating the same name twice, the
factory's `exists` returns `false` and `open` fails with `NotFound` —
refuting the claim that `exists(n)` is still true and `open(n)` still
succeeds. -/
theorem create_twice_factory_view_destroyed :
    (c10Final.map fun s2 => (factoryExists "n" s2, factoryOpen "n" s2)) =
      some (false, .error (.NotFound "n")) := by decide

theorem region_write_read_info_witness :
    (regionWrite w1Region w1State 1 [104, 105]).1 =
      .ok ⟨"r1", some "/dev/shm/r1.bin", none, 1, 2, 4⟩ ∧
    regionRead (regionWrite w1Region w1State 1 [104, 105]).2.1 = .ok [104, 105] ∧
    regionInfo (regionWrite w1Region w1State 1 [104, 105]).2.1 =
      .ok ⟨"r1", some "/dev/shm/r1.bin", none, 1, 2, 4⟩ :=
  region_write_read_info w1Region w1State 1 [104, 105] (by decide) (by decide) (by decide)

theorem region_write_boundary_witness :
    (regionWrite w3Region w1State 2 [1, 2, 3, 4]).1 =
      .ok ⟨"r2", some "/dev/shm/r2.bin", none, 2, 4, 4⟩ ∧
    regionWrite w3Region w1State 2 [9, 9, 9, 9, 9] =
      (.error (.DataTooLarge 5 4), w3Region, w1State) :=
  region_write_boundary w3Region w1State 2 [1, 2, 3, 4] [9, 9, 9, 9, 9]
    (by decide) (by decide) (by decide) (by decide)

theorem write_header_read_header_roundtrip_witness :
    ∃ buf', write_header (List.replicate 64 0) 42 50 = .ok buf' ∧
      read_header buf' 100 = some (42, 50) ∧ validate_magic buf' = true :=
  write_header_read_header_roundtrip (List.replicate 64 0) 42 50 100
    (by decide) (by decide) (by decide) (by decide)

theorem read_header_spec_witness : read_header w5Buf 5 = some (3, 2) :=
  (read_header_spec w5Buf 5 (by decide)).2 (by decide) (by decide) (by decide)

theorem mstate_write_increments_version_witness :
    (MState.write (fun _ => .ok []) (fun r _ _ => .ok r) w6State
      (fun u => (u, u))).2.versionOf = 5 + 1 :=
  (mstate_write_increments_version (fun _ => .ok []) (fun r _ _ => .ok r) w6State
    (fun u => (u, u))).2 (by decide)

theorem wait_for_change_spec_witness :
    ∃ e, wait_for_change (fun _ => 5) (fun _ => ⟨[], 5⟩) 5 10 3 = some (none, e) ∧
      e ≤ 10 + 3 :=
  (wait_for_change_spec (fun _ => 5) (fun _ => ⟨[], 5⟩) 5 10 3 (by decide)).1
    (fun _ => rfl)

theorem manager_version_spec_witness :
    managerVersion w9Registry "g" = .ok 5 ∧ read_version w9Region.mmap = some 5 :=
  (manager_version_spec w9Registry "g" ⟨"/dev/shm/g.bin", w9Region⟩ (by decide)).1
    5 2 (by decide)

set_option maxRecDepth 40000 in
theorem create_buffer_twice_removes_factory_entry_witness :
    factoryExists "n" c10S2 = false ∧
    factoryOpen "n" c10S2 = .error (.NotFound "n") ∧
    ∃ entry, alistLookup c10Reg2.entries "n" = some entry ∧
      entry.region.capacity = 4 :=
  create_buffer_twice_removes_factory_entry ⟨"/dev/shm"⟩ ⟨[]⟩ c10Reg1 c10Reg2
    ⟨[], [], 0, 77⟩ c10S1 c10S2 "n" 4 4 (by decide) (by decide)
    (by decide) (by decide)

end Memio
